import Mathlib

/-!
# Verification of the `ditherto` dithering engine

A shallow embedding, in Lean 4, of the core of the `ditherto` repository:
the three dithering algorithms (`src/algorithms/atkinson.ts`,
`src/algorithms/floydSteinberg.ts`, `src/algorithms/ordered.ts`), the
nearest-palette-colour search (`src/palette/utils.ts` and the identical
private copies inside each algorithm file), the algorithm registry
(`src/algorithmRegistry.ts`) and the option-validation / algorithm-resolution
part of the pipeline (`src/imageProcessor.ts`).

Modelling conventions:
* The JS `Uint8ClampedArray` pixel buffer is modelled as a total function
  `ℕ → ℕ` holding one 8-bit sample per index; a store into the array
  clamps to `[0,255]` and, for non-integral values, rounds to the nearest
  integer with ties to even (the ECMAScript `Uint8ClampedArray` conversion),
  which `toByte` implements over `ℚ`.
* All real-number arithmetic the source performs (`err * 7/16`,
  noise scaling, …) is exact over `ℚ`: every intermediate value the code
  produces is a rational with a small denominator, exactly representable
  as an IEEE double, so `ℚ` arithmetic is a faithful model of the
  floating-point evaluation.
* `Math.random()` (used only by the ordered algorithm) is modelled by an
  explicit stream `rng : ℕ → ℚ` consumed three samples per processed block,
  universally quantified in every theorem touching the ordered algorithm.
* A thrown `Error` is modelled by `Except.error` carrying the exact
  message string of the source.
* `findClosestColor` in the source compares `Math.sqrt` of the squared
  distances with `<`; since the real square root is strictly monotone on
  nonnegative reals (and the correctly rounded double square roots of the
  values arising here preserve strict order and equality), the embedding
  compares the squared distances directly.
-/

/-- One RGB palette entry: a triple of 8-bit channel values
(`ColorRGB` in `src/types.ts`). -/
abbrev Color : Type := ℕ × ℕ × ℕ

/-- A raw RGBA image: `width`, `height` and a flat byte buffer indexed by
`(y * width + x) * 4 + channel` (the JS `ImageData`). -/
structure Image : Type where
  width : ℕ
  height : ℕ
  data : ℕ → ℕ

/-- Base byte index of the pixel at `(x, y)`: `(y * width + x) * 4`. -/
def idx (w x y : ℕ) : ℕ := (y * w + x) * 4

/-- Pointwise array store: `buf[i] = v`. -/
def upd (buf : ℕ → ℕ) (i v : ℕ) : ℕ → ℕ := fun j => if j = i then v else buf j

/-- Round to the nearest integer, ties to even — the rounding mode of the
ECMAScript `ToUint8Clamp` conversion used by `Uint8ClampedArray` stores. -/
def roundHalfEven (q : ℚ) : ℤ :=
  let f : ℤ := ⌊q⌋
  let r : ℚ := q - f
  if r < 1/2 then f
  else if 1/2 < r then f + 1
  else if Even f then f else f + 1

/-- The value actually stored by `pixels[i] = q` on a `Uint8ClampedArray`:
clamp to `[0, 255]`, then round half to even. -/
def toByte (q : ℚ) : ℕ := (roundHalfEven (max 0 (min 255 q))).toNat

/-- Squared Euclidean RGB distance between a (possibly non-integral) pixel
value and a palette entry.  The source (`colorDistance` in
`src/palette/utils.ts`, and the inlined expression in each algorithm file)
takes `Math.sqrt` of this; the square root is strictly monotone, so all
`<` comparisons of distances agree with `<` comparisons of `distSq`. -/
def distSq (p : ℚ × ℚ × ℚ) (c : Color) : ℚ :=
  (p.1 - (c.1 : ℚ)) ^ 2 + (p.2.1 - (c.2.1 : ℚ)) ^ 2 + (p.2.2 - (c.2.2 : ℚ)) ^ 2

/-- View a byte triple read from the buffer as an exact rational pixel. -/
def toQ (c : ℕ × ℕ × ℕ) : ℚ × ℚ × ℚ := ((c.1 : ℚ), (c.2.1 : ℚ), (c.2.2 : ℚ))

/-- `d < minDistance` where `none` models the initial
`minDistance = Infinity`. -/
def ltMin (d : ℚ) : Option ℚ → Bool
  | none => true
  | some m => decide (d < m)

/-- The scan loop of `findClosestColor`: walk the palette left to right,
keeping the first entry seen so far of strictly smallest distance. -/
def findClosestGo (p : ℚ × ℚ × ℚ) (closest : Color) (minDist : Option ℚ) :
    List Color → Color
  | [] => closest
  | c :: rest =>
      if ltMin (distSq p c) minDist then findClosestGo p c (some (distSq p c)) rest
      else findClosestGo p closest minDist rest

/-- `findClosestColor(pixel, palette)` — identical bodies in
`src/palette/utils.ts`, `atkinson.ts`, `floydSteinberg.ts`, `ordered.ts`:
start with `closest = palette[0]`, `minDistance = Infinity`, scan the whole
palette updating on strict improvement.  The source throws on an empty
palette; every call site in the engine validates the palette first, so the
empty case is unreachable and is given a junk value here. -/
def findClosestColor (p : ℚ × ℚ × ℚ) (palette : List Color) : Color :=
  findClosestGo p (palette.headD (0, 0, 0)) none palette

/-- `applyError(pixels, index, eR, eG, eB, factor)` (identical in
`atkinson.ts` and `floydSteinberg.ts`): add the weighted error to the three
RGB samples at `index`, clamped to `[0,255]` by `Math.max/Math.min`, stored
through the clamped-array conversion. -/
def applyError (buf : ℕ → ℕ) (index : ℕ) (eR eG eB : ℤ) (factor : ℚ) :
    ℕ → ℕ :=
  let b1 := upd buf index (toByte (max 0 (min 255 ((buf index : ℚ) + (eR : ℚ) * factor))))
  let b2 := upd b1 (index + 1) (toByte (max 0 (min 255 ((b1 (index + 1) : ℚ) + (eG : ℚ) * factor))))
  upd b2 (index + 2) (toByte (max 0 (min 255 ((b2 (index + 2) : ℚ) + (eB : ℚ) * factor))))

/-- Store an RGB triple plus alpha 255 at pixel base index `i`
(`pixels[i] = c.r; pixels[i+1] = c.g; pixels[i+2] = c.b; pixels[i+3] = 255`);
the clamped-array store of a nonnegative integer `v` keeps `min v 255`. -/
def writeRGBA (buf : ℕ → ℕ) (i : ℕ) (c : Color) : ℕ → ℕ :=
  upd (upd (upd (upd buf i (min c.1 255)) (i + 1) (min c.2.1 255))
    (i + 2) (min c.2.2 255)) (i + 3) 255

/-- The index sequence of `for (v = 0; v < n; v += s)`:
`0, s, 2s, …` while `< n`. -/
def stepRange (s n : ℕ) : List ℕ := (List.range ((n + s - 1) / s)).map (· * s)

/-- The block anchors visited by the double loop
`for (y = 0; y < height; y += step) for (x = 0; x < width; x += step)`,
in raster order. -/
def anchors (w h s : ℕ) : List (ℕ × ℕ) :=
  (stepRange s h).flatMap (fun y => (stepRange s w).map (fun x => (x, y)))

namespace Atkinson

/-- `distributeAtkinsonError` (`src/algorithms/atkinson.ts`): diffuse the
quantization error, weight `1/8` each, to the six block-granular neighbours
`(x+s, y)`, `(x+2s, y)`, `(x-s, y+s)`, `(x, y+s)`, `(x+s, y+s)`,
`(x, y+2s)`, each guarded by the source's bounds check (the source's
`x - step >= 0` over JS numbers is `s ≤ x` over `ℕ`). -/
def distributeError (buf : ℕ → ℕ) (x y w h : ℕ) (eR eG eB : ℤ) (s : ℕ) :
    ℕ → ℕ :=
  let f : ℚ := 1/8
  let b1 := if x + s < w then applyError buf (idx w (x + s) y) eR eG eB f else buf
  let b2 := if x + s * 2 < w then applyError b1 (idx w (x + s * 2) y) eR eG eB f else b1
  let b3 := if y + s < h ∧ s ≤ x then applyError b2 (idx w (x - s) (y + s)) eR eG eB f else b2
  let b4 := if y + s < h then applyError b3 (idx w x (y + s)) eR eG eB f else b3
  let b5 := if y + s < h ∧ x + s < w then applyError b4 (idx w (x + s) (y + s)) eR eG eB f else b4
  if y + s * 2 < h then applyError b5 (idx w x (y + s * 2)) eR eG eB f else b5

/-- `processPixel` (`atkinson.ts`): read the current RGB at the anchor,
quantize it to the closest palette colour, store it with alpha 255, then
diffuse the per-channel error `old - new`. -/
def processPixel (buf : ℕ → ℕ) (x y w h : ℕ) (palette : List Color) (s : ℕ) :
    ℕ → ℕ :=
  let i := idx w x y
  let old : ℕ × ℕ × ℕ := (buf i, buf (i + 1), buf (i + 2))
  let new := findClosestColor (toQ old) palette
  let b := writeRGBA buf i new
  distributeError b x y w h ((old.1 : ℤ) - new.1) ((old.2.1 : ℤ) - new.2.1)
    ((old.2.2 : ℤ) - new.2.2) s

/-- The double `for` loop of `atkinsonAlgorithm.apply`, acting on the
result buffer. -/
def loop (w h s : ℕ) (palette : List Color) (buf : ℕ → ℕ) : ℕ → ℕ :=
  (anchors w h s).foldl (fun b a => processPixel b a.1 a.2 w h palette s) buf

/-- `atkinsonAlgorithm.apply(data, palette, step)`: validate the palette and
the step, copy the input buffer, run the anchor loop on the copy and return
it.  Note: unlike `floydSteinberg.ts` and `ordered.ts`, this file performs
no `fillPixelBlock` call for `step > 1`. -/
def apply (img : Image) (palette : List Color) (step : ℤ) :
    Except String Image :=
  if palette.length = 0 then .error "Palette cannot be empty"
  else if step < 1 then .error "Step must be >= 1"
  else .ok ⟨img.width, img.height, loop img.width img.height step.toNat palette img.data⟩

end Atkinson

namespace FloydSteinberg

/-- `distributeFloydSteinbergError` (`src/algorithms/floydSteinberg.ts`):
diffuse the error to `(x+s, y)` with weight `7/16`, `(x-s, y+s)` with
`3/16`, `(x, y+s)` with `5/16` and `(x+s, y+s)` with `1/16`, each guarded
by the source's bounds check. -/
def distributeError (buf : ℕ → ℕ) (x y w h : ℕ) (eR eG eB : ℤ) (s : ℕ) :
    ℕ → ℕ :=
  let b1 := if x + s < w then applyError buf (idx w (x + s) y) eR eG eB (7/16) else buf
  let b2 := if y + s < h ∧ s ≤ x then applyError b1 (idx w (x - s) (y + s)) eR eG eB (3/16) else b1
  let b3 := if y + s < h then applyError b2 (idx w x (y + s)) eR eG eB (5/16) else b2
  if y + s < h ∧ x + s < w then applyError b3 (idx w (x + s) (y + s)) eR eG eB (1/16) else b3

/-- `processPixel` (`floydSteinberg.ts`): quantize the anchor, store it with
alpha 255, diffuse the error with the Floyd–Steinberg kernel. -/
def processPixel (buf : ℕ → ℕ) (x y w h : ℕ) (palette : List Color) (s : ℕ) :
    ℕ → ℕ :=
  let i := idx w x y
  let old : ℕ × ℕ × ℕ := (buf i, buf (i + 1), buf (i + 2))
  let new := findClosestColor (toQ old) palette
  let b := writeRGBA buf i new
  distributeError b x y w h ((old.1 : ℤ) - new.1) ((old.2.1 : ℤ) - new.2.1)
    ((old.2.2 : ℤ) - new.2.2) s

/-- `fillPixelBlock` (`floydSteinberg.ts`): read the anchor's (already
quantized) RGB back from the buffer and copy it, with alpha 255, to every
other pixel of the `step × step` block, clipped to the image bounds. -/
def fillPixelBlock (buf : ℕ → ℕ) (x y w h s : ℕ) : ℕ → ℕ :=
  let c : Color := (buf (idx w x y), buf (idx w x y + 1), buf (idx w x y + 2))
  (List.range' y (min (y + s) h - y)).foldl
    (fun b by_ =>
      (List.range' x (min (x + s) w - x)).foldl
        (fun b2 bx =>
          if by_ ≠ y ∨ bx ≠ x then writeRGBA b2 (idx w bx by_) c else b2)
        b)
    buf

/-- The double `for` loop of `floydSteinbergAlgorithm.apply`: process each
anchor, then, when `step > 1`, fill its block. -/
def loop (w h s : ℕ) (palette : List Color) (buf : ℕ → ℕ) : ℕ → ℕ :=
  (anchors w h s).foldl
    (fun b a =>
      let b1 := processPixel b a.1 a.2 w h palette s
      if 1 < s then fillPixelBlock b1 a.1 a.2 w h s else b1)
    buf

/-- `floydSteinbergAlgorithm.apply(data, palette, step)`. -/
def apply (img : Image) (palette : List Color) (step : ℤ) :
    Except String Image :=
  if palette.length = 0 then .error "Palette cannot be empty"
  else if step < 1 then .error "Step must be >= 1"
  else .ok ⟨img.width, img.height, loop img.width img.height step.toNat palette img.data⟩

end FloydSteinberg

namespace Ordered

/-- The fixed 4×4 Bayer threshold matrix of `src/algorithms/ordered.ts`. -/
def BAYER_4X4 : List (List ℕ) :=
  [[0, 128, 32, 160], [192, 64, 224, 96], [48, 176, 16, 144], [240, 112, 208, 80]]

/-- `Math.max(0, Math.min(255, q))`. -/
def clampQ (q : ℚ) : ℚ := max 0 (min 255 q)

/-- `applyOrderedDithering` (`ordered.ts`): look up the Bayer threshold at
`(⌊x/s⌋ % 4, ⌊y/s⌋ % 4)` (defaulting to 128 out of range, as the source's
`?? 128` does), perturb each channel by `(r*2 - 1) * (threshold/255) * 32`
where `r0, r1, r2` are the three `Math.random()` samples, clamp to
`[0,255]`, and quantize the perturbed pixel. -/
def applyOrderedDithering (old : ℕ × ℕ × ℕ) (x y s : ℕ)
    (palette : List Color) (r0 r1 r2 : ℚ) : Color :=
  let bayerX := (x / s) % 4
  let bayerY := (y / s) % 4
  let threshold := (BAYER_4X4.getD bayerY []).getD bayerX 128
  let noiseR := (r0 * 2 - 1) * ((threshold : ℚ) / 255) * 32
  let noiseG := (r1 * 2 - 1) * ((threshold : ℚ) / 255) * 32
  let noiseB := (r2 * 2 - 1) * ((threshold : ℚ) / 255) * 32
  findClosestColor
    (clampQ ((old.1 : ℚ) + noiseR), clampQ ((old.2.1 : ℚ) + noiseG),
      clampQ ((old.2.2 : ℚ) + noiseB)) palette

/-- `fillPixelBlock` (`ordered.ts`): same block fill as the
Floyd–Steinberg one but the block colour is passed in (the freshly
quantized `newPixel`). -/
def fillPixelBlock (buf : ℕ → ℕ) (x y w h s : ℕ) (c : Color) : ℕ → ℕ :=
  (List.range' y (min (y + s) h - y)).foldl
    (fun b by_ =>
      (List.range' x (min (x + s) w - x)).foldl
        (fun b2 bx =>
          if by_ ≠ y ∨ bx ≠ x then writeRGBA b2 (idx w bx by_) c else b2)
        b)
    buf

/-- The double `for` loop of `orderedAlgorithm.apply`, threading the index
into the `Math.random()` sample stream (three samples per anchor). -/
def loop (w h s : ℕ) (palette : List Color) (rng : ℕ → ℚ) (buf : ℕ → ℕ) :
    ℕ → ℕ :=
  ((anchors w h s).foldl
    (fun st a =>
      let i := idx w a.1 a.2
      let old : ℕ × ℕ × ℕ := (st.1 i, st.1 (i + 1), st.1 (i + 2))
      let new := applyOrderedDithering old a.1 a.2 s palette
        (rng st.2) (rng (st.2 + 1)) (rng (st.2 + 2))
      let b := writeRGBA st.1 i new
      let b2 := if 1 < s then fillPixelBlock b a.1 a.2 w h s new else b
      (b2, st.2 + 3))
    (buf, 0)).1

/-- `orderedAlgorithm.apply(data, palette, step)`; `rng` is the ambient
`Math.random()` sample stream. -/
def apply (img : Image) (palette : List Color) (step : ℤ) (rng : ℕ → ℚ) :
    Except String Image :=
  if palette.length = 0 then .error "Palette cannot be empty"
  else if step < 1 then .error "Step must be >= 1"
  else .ok ⟨img.width, img.height,
    loop img.width img.height step.toNat palette rng img.data⟩

end Ordered

/-- The uniform call signature of a registered algorithm
(`DitherAlgorithm.apply` in `src/types.ts`): pixel buffer, palette, step.
The final argument is the ambient `Math.random()` stream, used only by the
ordered algorithm and ignored by the deterministic ones. -/
abbrev RegApply : Type := Image → List Color → ℤ → (ℕ → ℚ) → Except String Image

/-- The registry state of `src/algorithmRegistry.ts`: a name-keyed map,
modelled as an insertion-ordered association list. -/
abbrev Registry : Type := List (String × RegApply)

/-- `AlgorithmRegistry.register(algorithm)`: `Map.set` semantics — overwrite
the entry under the same name in place, else append. -/
def registerAlg (reg : Registry) (name : String) (a : RegApply) : Registry :=
  if (reg.map Prod.fst).contains name then
    reg.map (fun e => if e.1 = name then (name, a) else e)
  else reg ++ [(name, a)]

/-- `AlgorithmRegistry.get(name)`: lookup, `none` when absent. -/
def getAlg (reg : Registry) (name : String) : Option RegApply :=
  (reg.find? (fun e => e.1 = name)).map Prod.snd

/-- The three built-in algorithms, registered at module initialization in
`algorithmRegistry.ts` (atkinson, then floyd-steinberg, then ordered). -/
def builtinRegistry : Registry :=
  registerAlg
    (registerAlg
      (registerAlg [] "atkinson" (fun img p s _ => Atkinson.apply img p s))
      "floyd-steinberg" (fun img p s _ => FloydSteinberg.apply img p s))
    "ordered" (fun img p s rng => Ordered.apply img p s rng)

/-- `DitherOptions` (`src/types.ts`), restricted to the fields the pipeline
validation and algorithm resolution read.  `paletteImg` (palette extraction
from a reference image — an external collaborator per the spec) is not
modelled; the theorems below quantify over invocations with an explicit
palette or none. -/
structure DitherOptions : Type where
  step : Option ℤ := none
  quality : Option ℚ := none
  width : Option ℤ := none
  height : Option ℤ := none
  palette : Option (List Color) := none
  algorithm : Option String := none

/-- The hardcoded `validAlgorithms` list of `validateOptions`
(`src/imageProcessor.ts`). -/
def validAlgorithms : List String := ["atkinson", "floyd-steinberg", "ordered"]

/-- `validateOptions` (`src/imageProcessor.ts`): eager option validation.
Each check fires only when the option is present
(`options.x !== undefined && …`).  The algorithm-name check compares
against the hardcoded `validAlgorithms` list, not against the registry. -/
def validateOptions (o : DitherOptions) : Except String Unit :=
  if o.step.any fun s => decide (s ≤ 0) then .error "Step must be greater than 0"
  else if o.quality.any fun q => decide (q < 0) || decide (1 < q) then
    .error "Quality must be between 0 and 1"
  else if o.width.any fun v => decide (v ≤ 0) then .error "Width must be greater than 0"
  else if o.height.any fun v => decide (v ≤ 0) then .error "Height must be greater than 0"
  else if o.palette.any fun p => p.isEmpty then .error "Palette cannot be empty"
  else if o.algorithm.any fun a => !(validAlgorithms.contains a) then
    .error ("Invalid algorithm: " ++ o.algorithm.getD "" ++
      ". Must be one of: atkinson, floyd-steinberg, ordered")
  else .ok ()

/-- `getAlgorithm` (`imageProcessor.ts`): registry lookup, converting a miss
into the user-facing unknown-algorithm error. -/
def getAlgorithm (reg : Registry) (name : String) : Except String RegApply :=
  match getAlg reg name with
  | some a => .ok a
  | none => .error ("Unknown algorithm: " ++ name)

/-- `applyResize` (`imageProcessor.ts`): identity when neither `width` nor
`height` is requested, else delegate to the resize collaborator
(`resizeImageData` in `imageIO.ts`, external to the engine), injected here
as `resizeF`. -/
def applyResize (resizeF : Image → Option ℤ → Option ℤ → Image)
    (img : Image) (o : DitherOptions) : Image :=
  if o.width = none ∧ o.height = none then img
  else resizeF img o.width o.height

/-- `determinePalette` (`imageProcessor.ts`) for invocations without a
`paletteImg`: the explicit palette option, else the default black/white
palette `PALETTES.BW`. -/
def determinePalette (o : DitherOptions) : List Color :=
  match o.palette with
  | some p => p
  | none => [(0, 0, 0), (255, 255, 255)]

/-- Steps 1–5 of `ditherImage` (`imageProcessor.ts`): validate options,
resize if requested, resolve the palette and the algorithm (defaulting to
`'atkinson'` and step 1), and apply it.  Steps 6–7 (quality pass-through
encoding and environment output formatting, `outputFormat.ts`) are
downstream of everything the claims observe and are not modelled. -/
def ditherImageData (reg : Registry)
    (resizeF : Image → Option ℤ → Option ℤ → Image) (rng : ℕ → ℚ)
    (input : Image) (o : DitherOptions) : Except String Image := do
  validateOptions o
  let resized := applyResize resizeF input o
  let palette := determinePalette o
  let algorithmName := o.algorithm.getD "atkinson"
  let algorithm ← getAlgorithm reg algorithmName
  let step := o.step.getD 1
  algorithm resized palette step rng

/-- A byte index belonging to a pixel that is not a block anchor
(its column or row is not a multiple of the step). -/
def NonAnchorByte (w s j : ℕ) : Prop :=
  ∃ px py c, j = idx w px py + c ∧ c < 4 ∧ px < w ∧
    ¬(px % s = 0 ∧ py % s = 0)

/-- Concrete 2×2 test image: anchor pixel `(0,0,0)` with alpha 9, the three
other pixels `(7,7,7)` with alpha 3. -/
def wImg : Image :=
  ⟨2, 2, fun j => [0, 0, 0, 9, 7, 7, 7, 3, 7, 7, 7, 3, 7, 7, 7, 3].getD j 0⟩

/-- The black/white test palette. -/
def wPal : List Color := [(0, 0, 0), (255, 255, 255)]

/-- A heap of pixel buffers, one per reference. -/
abbrev Heap : Type := ℕ → (ℕ → ℕ)

/-- Store a whole buffer under a reference. -/
def updH (hp : Heap) (a : ℕ) (b : ℕ → ℕ) : Heap :=
  fun r => if r = a then b else hp r

/-- The allocation pattern shared by all three `apply` implementations
(`atkinson.ts` 288–290 and the analogous lines of the other two files):
`result = createImageDataCrossPlatform(new Uint8ClampedArray(data.data), …)`
allocates a fresh buffer `dst` seeded with a copy of the input `src`, and
the whole pixel loop then mutates `dst` only (every read and write in the
loop goes through `result.data`). -/
def applyOnHeap (loop : (ℕ → ℕ) → (ℕ → ℕ)) (hp : Heap) (src dst : ℕ) : Heap :=
  let hp1 := updH hp dst (hp src)
  updH hp1 dst (loop (hp1 dst))

/-- Channel selector for the per-channel quantization error
`(errorR, errorG, errorB)`. -/
def chErr (eR eG eB : ℤ) (c : ℕ) : ℤ := if c = 0 then eR else if c = 1 then eG else eB

/-- Everything claim C8 asserts about `distributeFloydSteinbergError` at an
anchor `(x, y)`: the four kernel weights sum to exactly 1; each in-bounds
neighbour `(x+s, y)`, `(x-s, y+s)`, `(x, y+s)`, `(x+s, y+s)` receives, on
each RGB channel, its previous value plus the error scaled by `7/16`,
`3/16`, `5/16`, `1/16` respectively, clamped to `[0,255]`; every byte that
is not an RGB byte of one of those neighbours is untouched (out-of-bounds
neighbours are silently skipped); and no byte ever leaves `[0,255]`. -/
def C8Spec (buf : ℕ → ℕ) (x y w h s : ℕ) (eR eG eB : ℤ) : Prop :=
  ((7 : ℚ)/16 + 3/16 + 5/16 + 1/16 = 1) ∧
  (x + s < w → ∀ c, c < 3 →
    FloydSteinberg.distributeError buf x y w h eR eG eB s (idx w (x + s) y + c) =
      toByte (max 0 (min 255 ((buf (idx w (x + s) y + c) : ℚ) +
        (chErr eR eG eB c : ℚ) * (7/16))))) ∧
  (y + s < h → s ≤ x → ∀ c, c < 3 →
    FloydSteinberg.distributeError buf x y w h eR eG eB s (idx w (x - s) (y + s) + c) =
      toByte (max 0 (min 255 ((buf (idx w (x - s) (y + s) + c) : ℚ) +
        (chErr eR eG eB c : ℚ) * (3/16))))) ∧
  (y + s < h → ∀ c, c < 3 →
    FloydSteinberg.distributeError buf x y w h eR eG eB s (idx w x (y + s) + c) =
      toByte (max 0 (min 255 ((buf (idx w x (y + s) + c) : ℚ) +
        (chErr eR eG eB c : ℚ) * (5/16))))) ∧
  (y + s < h → x + s < w → ∀ c, c < 3 →
    FloydSteinberg.distributeError buf x y w h eR eG eB s (idx w (x + s) (y + s) + c) =
      toByte (max 0 (min 255 ((buf (idx w (x + s) (y + s) + c) : ℚ) +
        (chErr eR eG eB c : ℚ) * (1/16))))) ∧
  (∀ j, (∀ c, c < 3 →
      j ≠ idx w (x + s) y + c ∧ j ≠ idx w (x - s) (y + s) + c ∧
      j ≠ idx w x (y + s) + c ∧ j ≠ idx w (x + s) (y + s) + c) →
    FloydSteinberg.distributeError buf x y w h eR eG eB s j = buf j) ∧
  ((∀ j, buf j ≤ 255) →
    ∀ j, FloydSteinberg.distributeError buf x y w h eR eG eB s j ≤ 255)

/-- A user-registered algorithm under a name outside the hardcoded
`validAlgorithms` list (the registry itself accepts any name). -/
def customAlg : RegApply := fun img _ _ _ => .ok img

/-- The registry after `algorithms.register({name: 'custom', …})`. -/
def customRegistry : Registry := registerAlg builtinRegistry "custom" customAlg

/-- Options selecting the registered custom algorithm with an explicit
one-colour palette. -/
def customOptions : DitherOptions :=
  { palette := some [(0, 0, 0)], algorithm := some "custom" }

lemma upd_apply_same (buf : ℕ → ℕ) (i v : ℕ) : upd buf i v i = v := by
  simp [upd]

lemma upd_apply_ne (buf : ℕ → ℕ) {i j : ℕ} (v : ℕ) (h : j ≠ i) :
    upd buf i v j = buf j := by
  simp [upd, h]

lemma roundHalfEven_nonneg {q : ℚ} (h : 0 ≤ q) : 0 ≤ roundHalfEven q := by
  have hf : (0 : ℤ) ≤ ⌊q⌋ := Int.le_floor.mpr (by exact_mod_cast h)
  unfold roundHalfEven
  dsimp only
  split
  · exact hf
  · split
    · omega
    · split <;> omega

lemma roundHalfEven_le {q : ℚ} (h : q ≤ 255) : roundHalfEven q ≤ 255 := by
  have hf : ⌊q⌋ ≤ 255 := by
    have : ⌊q⌋ ≤ ⌊(255 : ℚ)⌋ := Int.floor_le_floor h
    simpa using this
  unfold roundHalfEven
  dsimp only
  rcases lt_or_eq_of_le hf with hlt | heq
  · split
    · omega
    · split
      · omega
      · split <;> omega
  · -- ⌊q⌋ = 255 forces q = 255 exactly, so the fractional part is 0
    have hq : (255 : ℚ) ≤ q := by
      have := Int.floor_le q
      rw [heq] at this
      exact_mod_cast this
    have hq' : q = 255 := le_antisymm h hq
    subst hq'
    norm_num [heq]

lemma toByte_le (q : ℚ) : toByte q ≤ 255 := by
  unfold toByte
  have h1 : max 0 (min 255 q) ≤ 255 := by
    apply max_le (by norm_num) (min_le_left _ _)
  have := roundHalfEven_le h1
  omega

lemma toByte_natCast {n : ℕ} (h : n ≤ 255) : toByte (n : ℚ) = n := by
  unfold toByte roundHalfEven
  have h1 : max 0 (min 255 (n : ℚ)) = (n : ℚ) := by
    rw [min_eq_right (by exact_mod_cast h), max_eq_right (by positivity)]
  rw [h1]
  simp

/-- Distinct in-row-bounds pixel coordinates have distinct linear indices. -/
lemma rowcol_inj {w x1 y1 x2 y2 : ℕ} (h1 : x1 < w) (h2 : x2 < w)
    (h : y1 * w + x1 = y2 * w + x2) : x1 = x2 ∧ y1 = y2 := by
  have hx : x1 = x2 := by
    have e1 : (y1 * w + x1) % w = x1 := by
      rw [Nat.mul_comm, Nat.mul_add_mod]
      exact Nat.mod_eq_of_lt h1
    have e2 : (y2 * w + x2) % w = x2 := by
      rw [Nat.mul_comm, Nat.mul_add_mod]
      exact Nat.mod_eq_of_lt h2
    rw [← e1, ← e2, h]
  refine ⟨hx, ?_⟩
  subst hx
  have hw : 0 < w := Nat.pos_of_ne_zero (by rintro rfl; omega)
  have := Nat.add_right_cancel h
  exact Nat.eq_of_mul_eq_mul_right hw this

/-- Byte indices of distinct pixels (both with `x < w`) never collide. -/
lemma idx_byte_ne {w x1 y1 x2 y2 c1 c2 : ℕ} (h1 : x1 < w) (h2 : x2 < w)
    (hc1 : c1 < 4) (hc2 : c2 < 4) (hne : (x1, y1) ≠ (x2, y2)) :
    idx w x1 y1 + c1 ≠ idx w x2 y2 + c2 := by
  unfold idx
  intro h
  have hp : y1 * w + x1 = y2 * w + x2 := by omega
  obtain ⟨hx, hy⟩ := rowcol_inj h1 h2 hp
  exact hne (by simp [hx, hy])

lemma mem_stepRange {s n x : ℕ} (hs : 1 ≤ s) (hx : x ∈ stepRange s n) :
    x % s = 0 ∧ x < n := by
  unfold stepRange at hx
  simp only [List.mem_map, List.mem_range] at hx
  obtain ⟨k, hk, rfl⟩ := hx
  constructor
  · simp [Nat.mul_mod_left]
  · -- k < ⌈n / s⌉ implies k * s < n
    have h1 : k + 1 ≤ (n + s - 1) / s := hk
    have h2 : (k + 1) * s ≤ ((n + s - 1) / s) * s :=
      Nat.mul_le_mul_right s h1
    have h3 : ((n + s - 1) / s) * s ≤ n + s - 1 := Nat.div_mul_le_self _ _
    have h4 : (k + 1) * s ≤ n + s - 1 := le_trans h2 h3
    have h5 : k * s + s = (k + 1) * s := by ring
    omega

lemma mem_anchors {w h s : ℕ} {a : ℕ × ℕ} (hs : 1 ≤ s)
    (ha : a ∈ anchors w h s) :
    a.1 % s = 0 ∧ a.2 % s = 0 ∧ a.1 < w ∧ a.2 < h := by
  unfold anchors at ha
  simp only [List.mem_flatMap, List.mem_map] at ha
  obtain ⟨y, hy, x, hx, rfl⟩ := ha
  obtain ⟨hy1, hy2⟩ := mem_stepRange hs hy
  obtain ⟨hx1, hx2⟩ := mem_stepRange hs hx
  exact ⟨hx1, hy1, hx2, hy2⟩

lemma applyError_frame {j index : ℕ} (buf : ℕ → ℕ) (eR eG eB : ℤ) (f : ℚ)
    (h0 : j ≠ index) (h1 : j ≠ index + 1) (h2 : j ≠ index + 2) :
    applyError buf index eR eG eB f j = buf j := by
  simp [applyError, upd, h0, h1, h2]

lemma writeRGBA_frame {j i : ℕ} (buf : ℕ → ℕ) (c : Color)
    (h0 : j ≠ i) (h1 : j ≠ i + 1) (h2 : j ≠ i + 2) (h3 : j ≠ i + 3) :
    writeRGBA buf i c j = buf j := by
  simp [writeRGBA, upd, h0, h1, h2, h3]


/-- A byte of a non-anchor pixel is never one of the four bytes of an
anchor-aligned in-row-bounds pixel. -/
lemma nonAnchorByte_ne {w s j a b c' : ℕ} (hj : NonAnchorByte w s j)
    (ha : a % s = 0) (hb : b % s = 0) (haw : a < w) (hc' : c' < 4) :
    j ≠ idx w a b + c' := by
  obtain ⟨px, py, c, rfl, hc, hpx, hna⟩ := hj
  apply idx_byte_ne hpx haw hc hc'
  rintro ⟨⟩
  exact hna ⟨ha, hb⟩

lemma applyError_frame_nonAnchor {w s j a b : ℕ} (buf : ℕ → ℕ)
    (eR eG eB : ℤ) (f : ℚ) (hj : NonAnchorByte w s j)
    (ha : a % s = 0) (hb : b % s = 0) (haw : a < w) :
    applyError buf (idx w a b) eR eG eB f j = buf j := by
  have k0 := nonAnchorByte_ne hj ha hb haw (show 0 < 4 by omega)
  have k1 := nonAnchorByte_ne hj ha hb haw (show 1 < 4 by omega)
  have k2 := nonAnchorByte_ne hj ha hb haw (show 2 < 4 by omega)
  rw [Nat.add_zero] at k0
  exact applyError_frame buf eR eG eB f k0 k1 k2

namespace Atkinson

/-- Atkinson error diffusion only writes to bytes of anchor-aligned pixels:
bytes of non-anchor pixels are untouched. -/
lemma distributeError_frame {w h s x y j : ℕ} (buf : ℕ → ℕ) (eR eG eB : ℤ)
    (hs : 1 ≤ s) (hx : x % s = 0) (hy : y % s = 0) (hxw : x < w)
    (hj : NonAnchorByte w s j) :
    distributeError buf x y w h eR eG eB s j = buf j := by
  have hspos : 0 < s := hs
  have hxs : (x + s) % s = 0 := by rw [Nat.add_mod_right]; exact hx
  have hxs2 : (x + s * 2) % s = 0 := by
    have e : x + s * 2 = x + s + s := by ring
    rw [e, Nat.add_mod_right, Nat.add_mod_right]; exact hx
  have hys : (y + s) % s = 0 := by rw [Nat.add_mod_right]; exact hy
  have hys2 : (y + s * 2) % s = 0 := by
    have e : y + s * 2 = y + s + s := by ring
    rw [e, Nat.add_mod_right, Nat.add_mod_right]; exact hy
  have hxms : (x - s) % s = 0 := by
    have hdvd : s ∣ (x - s) := Nat.dvd_sub' (Nat.dvd_of_mod_eq_zero hx) dvd_rfl
    exact Nat.mod_eq_zero_of_dvd hdvd
  unfold distributeError
  set b1 := if x + s < w then applyError buf (idx w (x + s) y) eR eG eB (1/8) else buf with hb1
  set b2 := if x + s * 2 < w then applyError b1 (idx w (x + s * 2) y) eR eG eB (1/8) else b1 with hb2
  set b3 := if y + s < h ∧ s ≤ x then applyError b2 (idx w (x - s) (y + s)) eR eG eB (1/8) else b2 with hb3
  set b4 := if y + s < h then applyError b3 (idx w x (y + s)) eR eG eB (1/8) else b3 with hb4
  set b5 := if y + s < h ∧ x + s < w then applyError b4 (idx w (x + s) (y + s)) eR eG eB (1/8) else b4 with hb5
  have e1 : b1 j = buf j := by
    rw [hb1]; split
    · next hg => rw [applyError_frame_nonAnchor buf eR eG eB _ hj hxs hy hg]
    · rfl
  have e2 : b2 j = buf j := by
    rw [hb2]; split
    · next hg => rw [applyError_frame_nonAnchor b1 eR eG eB _ hj hxs2 hy hg]; exact e1
    · exact e1
  have e3 : b3 j = buf j := by
    rw [hb3]; split
    · next hg =>
        rw [applyError_frame_nonAnchor b2 eR eG eB _ hj hxms hys
          (lt_of_le_of_lt (Nat.sub_le x s) hxw)]
        exact e2
    · exact e2
  have e4 : b4 j = buf j := by
    rw [hb4]; split
    · next hg => rw [applyError_frame_nonAnchor b3 eR eG eB _ hj hx hys hxw]; exact e3
    · exact e3
  have e5 : b5 j = buf j := by
    rw [hb5]; split
    · next hg => rw [applyError_frame_nonAnchor b4 eR eG eB _ hj hxs hys hg.2]; exact e4
    · exact e4
  split
  · next hg => rw [applyError_frame_nonAnchor b5 eR eG eB _ hj hx hys2 hxw]; exact e5
  · exact e5

/-- `processPixel` only writes to bytes of anchor-aligned pixels. -/
lemma processPixel_frame {w h s x y j : ℕ} (buf : ℕ → ℕ)
    (palette : List Color) (hs : 1 ≤ s) (hx : x % s = 0) (hy : y % s = 0)
    (hxw : x < w) (hj : NonAnchorByte w s j) :
    processPixel buf x y w h palette s j = buf j := by
  unfold processPixel
  rw [distributeError_frame _ _ _ _ hs hx hy hxw hj]
  have k0 := nonAnchorByte_ne hj hx hy hxw (show 0 < 4 by omega)
  have k1 := nonAnchorByte_ne hj hx hy hxw (show 1 < 4 by omega)
  have k2 := nonAnchorByte_ne hj hx hy hxw (show 2 < 4 by omega)
  have k3 := nonAnchorByte_ne hj hx hy hxw (show 3 < 4 by omega)
  rw [Nat.add_zero] at k0
  exact writeRGBA_frame buf _ k0 k1 k2 k3

/-- The whole Atkinson anchor loop never writes a byte of a non-anchor
pixel. -/
lemma loop_frame {w h s j : ℕ} (palette : List Color) (hs : 1 ≤ s)
    (hj : NonAnchorByte w s j) (buf : ℕ → ℕ) :
    loop w h s palette buf j = buf j := by
  unfold loop
  have main : ∀ (l : List (ℕ × ℕ)),
      (∀ a ∈ l, a.1 % s = 0 ∧ a.2 % s = 0 ∧ a.1 < w) → ∀ b : ℕ → ℕ,
      (l.foldl (fun b a => processPixel b a.1 a.2 w h palette s) b) j = b j := by
    intro l
    induction l with
    | nil => intro _ b; rfl
    | cons a rest ih =>
        intro hal b
        have ha := hal a (List.mem_cons_self a rest)
        rw [List.foldl_cons, ih (fun a' ha' => hal a' (List.mem_cons_of_mem a ha'))]
        exact processPixel_frame b palette hs ha.1 ha.2.1 ha.2.2 hj
  exact main (anchors w h s)
    (fun a ha => by
      have := mem_anchors hs ha
      exact ⟨this.1, this.2.1, this.2.2.1⟩) buf

end Atkinson


lemma atkinson_apply_ok {img : Image} {p : List Color} {s : ℤ} {out : Image}
    (h : Atkinson.apply img p s = .ok out) :
    p ≠ [] ∧ 1 ≤ s ∧
      out = ⟨img.width, img.height,
        Atkinson.loop img.width img.height s.toNat p img.data⟩ := by
  unfold Atkinson.apply at h
  split at h
  · exact absurd h (by simp)
  · split at h
    · exact absurd h (by simp)
    · next h1 h2 =>
        refine ⟨fun he => h1 (by simp [he]), by omega, ?_⟩
        exact (Except.ok.injEq _ _).mp h |>.symm

/-- C10: for the Atkinson algorithm, every pixel whose column or row is not
a multiple of the step keeps all four of its RGBA bytes exactly unchanged in
the output: the anchor write and the error diffusion only ever touch
anchor-aligned pixels, and `atkinson.ts` performs no block fill. -/
theorem atkinson_non_anchor_bytes_unchanged (img : Image)
    (palette : List Color) (s : ℕ) (hs : 1 < s) (out : Image)
    (h : Atkinson.apply img palette (s : ℤ) = .ok out)
    (x y c : ℕ) (hx : x < img.width) (hy : y < img.height) (hc : c < 4)
    (hna : ¬(x % s = 0 ∧ y % s = 0)) :
    out.data (idx img.width x y + c) = img.data (idx img.width x y + c) := by
  obtain ⟨hp, hs1, rfl⟩ := atkinson_apply_ok h
  have htn : (s : ℤ).toNat = s := Int.toNat_natCast s
  rw [htn]
  exact Atkinson.loop_frame palette (by omega) ⟨x, y, c, rfl, hc, hx, hna⟩ img.data

/-- Witness for `atkinson_non_anchor_bytes_unchanged`: the concrete 2×2
image, black/white palette, step 2; pixel `(1,0)` (byte index 4) is not an
anchor and keeps its input red byte. -/
theorem atkinson_non_anchor_bytes_unchanged_witness :
    (Atkinson.apply wImg wPal 2).map (fun o => o.data (idx 2 1 0)) =
      .ok (wImg.data (idx 2 1 0)) := by
  have h : Atkinson.apply wImg wPal 2 =
      .ok ⟨2, 2, Atkinson.loop 2 2 2 wPal wImg.data⟩ := rfl
  rw [h]
  have := atkinson_non_anchor_bytes_unchanged wImg wPal 2 (by omega) _ h
    1 0 0 (by simp [wImg]) (by simp [wImg]) (by omega) (by omega)
  simpa [Except.map] using this

/-- Invariant of the `findClosestColor` scan: starting from a candidate
whose distance is the running minimum, the loop returns either the
candidate (no strict improvement exists) or the first strictly better
entry that no later entry strictly beats. -/
lemma findClosestGo_spec (p : ℚ × ℚ × ℚ) :
    ∀ (rest : List Color) (closest : Color),
      (findClosestGo p closest (some (distSq p closest)) rest = closest ∧
        ∀ x ∈ rest, distSq p closest ≤ distSq p x) ∨
      (∃ l1 l2,
        rest = l1 ++ findClosestGo p closest (some (distSq p closest)) rest :: l2 ∧
        distSq p (findClosestGo p closest (some (distSq p closest)) rest) <
          distSq p closest ∧
        (∀ x ∈ l1,
          distSq p (findClosestGo p closest (some (distSq p closest)) rest) <
            distSq p x) ∧
        (∀ x ∈ l2,
          distSq p (findClosestGo p closest (some (distSq p closest)) rest) ≤
            distSq p x)) := by
  intro rest
  induction rest with
  | nil => intro closest; left; exact ⟨rfl, by simp⟩
  | cons c cs ih =>
      intro closest
      by_cases hlt : distSq p c < distSq p closest
      · have hstep : findClosestGo p closest (some (distSq p closest)) (c :: cs) =
            findClosestGo p c (some (distSq p c)) cs := by
          simp [findClosestGo, ltMin, hlt]
        rw [hstep]
        rcases ih c with ⟨heq, hall⟩ | ⟨l1, l2, hsplit, hblt, hl1, hl2⟩
        · right
          exact ⟨[], cs, by simpa [heq], by rw [heq]; exact hlt,
            by simp, by rw [heq]; exact hall⟩
        · right
          refine ⟨c :: l1, l2, by simpa using hsplit, lt_trans hblt hlt, ?_, hl2⟩
          intro x hx
          rcases List.mem_cons.mp hx with rfl | hx'
          · exact hblt
          · exact hl1 x hx'
      · have hstep : findClosestGo p closest (some (distSq p closest)) (c :: cs) =
            findClosestGo p closest (some (distSq p closest)) cs := by
          simp [findClosestGo, ltMin, hlt]
        rw [hstep]
        rcases ih closest with ⟨heq, hall⟩ | ⟨l1, l2, hsplit, hblt, hl1, hl2⟩
        · left
          refine ⟨heq, ?_⟩
          intro x hx
          rcases List.mem_cons.mp hx with rfl | hx'
          · exact not_lt.mp hlt
          · exact hall x hx'
        · right
          refine ⟨c :: l1, l2, by simpa using hsplit, hblt, ?_, hl2⟩
          intro x hx
          rcases List.mem_cons.mp hx with rfl | hx'
          · exact lt_of_lt_of_le hblt (not_lt.mp hlt)
          · exact hl1 x hx'

/-- C7: `findClosestColor` scans the palette left to right and returns the
first entry achieving the minimum (squared, equivalently Euclidean)
distance: the palette splits as `l1 ++ result :: l2` where every entry of
`l1` is strictly farther and no entry anywhere is strictly closer.  In
particular, on the black/white palette, pixel `(127,127,127)` maps to black
(equal distance, first entry wins) and `(128,128,128)` maps to white. -/
theorem findClosestColor_first_argmin :
    (∀ (p : ℚ × ℚ × ℚ) (c0 : Color) (rest : List Color),
      ∃ l1 l2, c0 :: rest = l1 ++ findClosestColor p (c0 :: rest) :: l2 ∧
        (∀ x ∈ l1, distSq p (findClosestColor p (c0 :: rest)) < distSq p x) ∧
        (∀ x ∈ c0 :: rest, distSq p (findClosestColor p (c0 :: rest)) ≤ distSq p x)) ∧
    findClosestColor (127, 127, 127) wPal = (0, 0, 0) ∧
    findClosestColor (128, 128, 128) wPal = (255, 255, 255) := by
  refine ⟨?_, ?_, ?_⟩
  · intro p c0 rest
    have hunfold : findClosestColor p (c0 :: rest) =
        findClosestGo p c0 (some (distSq p c0)) rest := by
      simp [findClosestColor, findClosestGo, ltMin]
    rw [hunfold]
    rcases findClosestGo_spec p rest c0 with ⟨heq, hall⟩ | ⟨l1, l2, hsplit, hblt, hl1, hl2⟩
    · refine ⟨[], rest, by simpa [heq], by simp, ?_⟩
      intro x hx
      rcases List.mem_cons.mp hx with rfl | hx'
      · rw [heq]
      · rw [heq]; exact hall x hx'
    · refine ⟨c0 :: l1, l2, by simpa using hsplit, ?_, ?_⟩
      · intro x hx
        rcases List.mem_cons.mp hx with rfl | hx'
        · exact hblt
        · exact hl1 x hx'
      · intro x hx
        rcases List.mem_cons.mp hx with rfl | hx'
        · exact le_of_lt hblt
        · rw [hsplit] at hx'
          rcases List.mem_append.mp hx' with hx1 | hx2
          · exact le_of_lt (hl1 x hx1)
          · rcases List.mem_cons.mp hx2 with rfl | hx3
            · exact le_refl _
            · exact hl2 x hx3
  · norm_num [findClosestColor, findClosestGo, ltMin, distSq, wPal]
  · norm_num [findClosestColor, findClosestGo, ltMin, distSq, wPal]

/-- Witness for `findClosestColor_first_argmin`: its universally quantified
part instantiated at the gray pixel `(127,127,127)` and the concrete
black/white palette. -/
theorem findClosestColor_first_argmin_witness :
    ∃ l1 l2, ((0, 0, 0) : Color) :: [((255, 255, 255) : Color)] =
        l1 ++ findClosestColor (127, 127, 127) ((0, 0, 0) :: [(255, 255, 255)]) :: l2 ∧
      (∀ x ∈ l1,
        distSq (127, 127, 127)
          (findClosestColor (127, 127, 127) ((0, 0, 0) :: [(255, 255, 255)])) <
          distSq (127, 127, 127) x) ∧
      (∀ x ∈ ((0, 0, 0) : Color) :: [((255, 255, 255) : Color)],
        distSq (127, 127, 127)
          (findClosestColor (127, 127, 127) ((0, 0, 0) :: [(255, 255, 255)])) ≤
          distSq (127, 127, 127) x) :=
  findClosestColor_first_argmin.1 (127, 127, 127) (0, 0, 0) [(255, 255, 255)]

/-- C4: every algorithm's `apply` validates its inputs before touching any
pixel: an empty palette yields `EmptyPaletteError`
(`'Palette cannot be empty'`) for every image, step and random stream (the
error does not depend on the image, so no pixel is read); a non-empty
palette with `step < 1` yields `InvalidStepError` (`'Step must be >= 1'`);
a non-empty palette with `step >= 1` raises neither error. -/
theorem apply_validates_before_work :
    (∀ (img : Image) (s : ℤ) (rng : ℕ → ℚ),
      Atkinson.apply img [] s = .error "Palette cannot be empty" ∧
      FloydSteinberg.apply img [] s = .error "Palette cannot be empty" ∧
      Ordered.apply img [] s rng = .error "Palette cannot be empty") ∧
    (∀ (img : Image) (p : List Color) (s : ℤ) (rng : ℕ → ℚ), p ≠ [] → s < 1 →
      Atkinson.apply img p s = .error "Step must be >= 1" ∧
      FloydSteinberg.apply img p s = .error "Step must be >= 1" ∧
      Ordered.apply img p s rng = .error "Step must be >= 1") ∧
    (∀ (img : Image) (p : List Color) (s : ℤ) (rng : ℕ → ℚ), p ≠ [] → 1 ≤ s →
      (Atkinson.apply img p s).isOk = true ∧
      (FloydSteinberg.apply img p s).isOk = true ∧
      (Ordered.apply img p s rng).isOk = true) := by
  refine ⟨?_, ?_, ?_⟩
  · intro img s rng
    refine ⟨?_, ?_, ?_⟩ <;>
      simp [Atkinson.apply, FloydSteinberg.apply, Ordered.apply]
  · intro img p s rng hp hs
    have hlen : ¬p.length = 0 := by simpa using hp
    refine ⟨?_, ?_, ?_⟩ <;>
      simp [Atkinson.apply, FloydSteinberg.apply, Ordered.apply, hlen, hs]
  · intro img p s rng hp hs
    have hlen : ¬p.length = 0 := by simpa using hp
    have hs' : ¬s < 1 := by omega
    refine ⟨?_, ?_, ?_⟩ <;>
      simp [Atkinson.apply, FloydSteinberg.apply, Ordered.apply, hlen, hs',
        Except.isOk, Except.toBool]

/-- Witness for `apply_validates_before_work` at concrete inputs: the 2×2
test image, palette `[]` or the black/white palette, steps 1 and 0, and the
all-zero random stream. -/
theorem apply_validates_before_work_witness :
    (Atkinson.apply wImg [] 1 = .error "Palette cannot be empty" ∧
      FloydSteinberg.apply wImg [] 1 = .error "Palette cannot be empty" ∧
      Ordered.apply wImg [] 1 (fun _ => 0) = .error "Palette cannot be empty") ∧
    (Atkinson.apply wImg wPal 0 = .error "Step must be >= 1" ∧
      FloydSteinberg.apply wImg wPal 0 = .error "Step must be >= 1" ∧
      Ordered.apply wImg wPal 0 (fun _ => 0) = .error "Step must be >= 1") ∧
    (Atkinson.apply wImg wPal 1).isOk = true ∧
    (FloydSteinberg.apply wImg wPal 1).isOk = true ∧
    (Ordered.apply wImg wPal 1 (fun _ => 0)).isOk = true :=
  ⟨apply_validates_before_work.1 wImg 1 (fun _ => 0),
    apply_validates_before_work.2.1 wImg wPal 0 (fun _ => 0) (by simp [wPal]) (by omega),
    apply_validates_before_work.2.2 wImg wPal 1 (fun _ => 0) (by simp [wPal]) (by omega)⟩

/-- C5: the two diffusion algorithms are deterministic: their embeddings
are pure functions of exactly `(image, palette, step)` — `atkinson.ts` and
`floydSteinberg.ts` call no source of nondeterminism (`Math.random` appears
only in `ordered.ts`) — so two calls on byte-identical inputs return
byte-identical outputs, even when the metadata records and buffer functions
are merely pointwise equal rather than syntactically identical. -/
theorem diffusion_algorithms_deterministic (img1 img2 : Image)
    (p : List Color) (s : ℤ) (hw : img1.width = img2.width)
    (hh : img1.height = img2.height) (hd : ∀ i, img1.data i = img2.data i) :
    Atkinson.apply img1 p s = Atkinson.apply img2 p s ∧
    FloydSteinberg.apply img1 p s = FloydSteinberg.apply img2 p s := by
  obtain ⟨w1, h1, d1⟩ := img1
  obtain ⟨w2, h2, d2⟩ := img2
  simp only at hw hh hd
  subst hw hh
  have : d1 = d2 := funext hd
  subst this
  exact ⟨rfl, rfl⟩

/-- Witness for `diffusion_algorithms_deterministic` at the concrete 2×2
image and black/white palette. -/
theorem diffusion_algorithms_deterministic_witness :
    Atkinson.apply wImg wPal 1 = Atkinson.apply wImg wPal 1 ∧
    FloydSteinberg.apply wImg wPal 1 = FloydSteinberg.apply wImg wPal 1 :=
  diffusion_algorithms_deterministic wImg wImg wPal 1 rfl rfl (fun _ => rfl)


lemma floydSteinberg_apply_ok {img : Image} {p : List Color} {s : ℤ}
    {out : Image} (h : FloydSteinberg.apply img p s = .ok out) :
    p ≠ [] ∧ 1 ≤ s ∧
      out = ⟨img.width, img.height,
        FloydSteinberg.loop img.width img.height s.toNat p img.data⟩ := by
  unfold FloydSteinberg.apply at h
  split at h
  · exact absurd h (by simp)
  · split at h
    · exact absurd h (by simp)
    · next h1 h2 =>
        refine ⟨fun he => h1 (by simp [he]), by omega, ?_⟩
        exact (Except.ok.injEq _ _).mp h |>.symm

lemma ordered_apply_ok {img : Image} {p : List Color} {s : ℤ} {rng : ℕ → ℚ}
    {out : Image} (h : Ordered.apply img p s rng = .ok out) :
    p ≠ [] ∧ 1 ≤ s ∧
      out = ⟨img.width, img.height,
        Ordered.loop img.width img.height s.toNat p rng img.data⟩ := by
  unfold Ordered.apply at h
  split at h
  · exact absurd h (by simp)
  · split at h
    · exact absurd h (by simp)
    · next h1 h2 =>
        refine ⟨fun he => h1 (by simp [he]), by omega, ?_⟩
        exact (Except.ok.injEq _ _).mp h |>.symm

/-- C6: for every algorithm and every valid invocation, the caller's input
buffer is unchanged and the returned buffer is the freshly allocated copy,
mutated by the loop: running any of the three pixel loops on the two-buffer
heap leaves the source reference byte-identical and leaves under the
destination reference the loop applied to a copy of the input; and each
`apply`'s successful result is exactly that loop applied to (a copy of) the
input bytes. -/
theorem input_buffer_never_mutated :
    (∀ (hp : Heap) (src dst : ℕ), src ≠ dst →
      ∀ (w h s : ℕ) (palette : List Color) (rng : ℕ → ℚ),
        applyOnHeap (Atkinson.loop w h s palette) hp src dst src = hp src ∧
        applyOnHeap (Atkinson.loop w h s palette) hp src dst dst =
          Atkinson.loop w h s palette (hp src) ∧
        applyOnHeap (FloydSteinberg.loop w h s palette) hp src dst src = hp src ∧
        applyOnHeap (FloydSteinberg.loop w h s palette) hp src dst dst =
          FloydSteinberg.loop w h s palette (hp src) ∧
        applyOnHeap (Ordered.loop w h s palette rng) hp src dst src = hp src ∧
        applyOnHeap (Ordered.loop w h s palette rng) hp src dst dst =
          Ordered.loop w h s palette rng (hp src)) ∧
    (∀ (img : Image) (p : List Color) (s : ℤ) (rng : ℕ → ℚ) (out : Image),
      (Atkinson.apply img p s = .ok out →
        out.data = Atkinson.loop img.width img.height s.toNat p img.data) ∧
      (FloydSteinberg.apply img p s = .ok out →
        out.data = FloydSteinberg.loop img.width img.height s.toNat p img.data) ∧
      (Ordered.apply img p s rng = .ok out →
        out.data = Ordered.loop img.width img.height s.toNat p rng img.data)) := by
  constructor
  · intro hp src dst hne w h s palette rng
    refine ⟨?_, ?_, ?_, ?_, ?_, ?_⟩ <;> simp [applyOnHeap, updH, hne]
  · intro img p s rng out
    refine ⟨?_, ?_, ?_⟩
    · intro h; rw [(atkinson_apply_ok h).2.2]
    · intro h; rw [(floydSteinberg_apply_ok h).2.2]
    · intro h; rw [(ordered_apply_ok h).2.2]

/-- Witness for `input_buffer_never_mutated`: a concrete two-buffer heap
(references 0 and 1) holding the 2×2 test image's bytes. -/
theorem input_buffer_never_mutated_witness :
    applyOnHeap (Atkinson.loop 2 2 1 wPal) (fun _ => wImg.data) 0 1 0 =
        (fun _ => wImg.data) 0 ∧
    applyOnHeap (Atkinson.loop 2 2 1 wPal) (fun _ => wImg.data) 0 1 1 =
        Atkinson.loop 2 2 1 wPal ((fun _ => wImg.data) 0) :=
  let base := input_buffer_never_mutated.1 (fun _ => wImg.data) 0 1
    (by omega) 2 2 1 wPal (fun _ => 0)
  ⟨base.1, base.2.1⟩

lemma applyError_at0 (buf : ℕ → ℕ) (i : ℕ) (eR eG eB : ℤ) (f : ℚ) :
    applyError buf i eR eG eB f i =
      toByte (max 0 (min 255 ((buf i : ℚ) + (eR : ℚ) * f))) := by
  unfold applyError
  rw [upd_apply_ne _ _ (by omega), upd_apply_ne _ _ (by omega), upd_apply_same]

lemma applyError_at1 (buf : ℕ → ℕ) (i : ℕ) (eR eG eB : ℤ) (f : ℚ) :
    applyError buf i eR eG eB f (i + 1) =
      toByte (max 0 (min 255 ((buf (i + 1) : ℚ) + (eG : ℚ) * f))) := by
  unfold applyError
  rw [upd_apply_ne _ _ (by omega), upd_apply_same,
    upd_apply_ne _ _ (by omega)]

lemma applyError_at2 (buf : ℕ → ℕ) (i : ℕ) (eR eG eB : ℤ) (f : ℚ) :
    applyError buf i eR eG eB f (i + 2) =
      toByte (max 0 (min 255 ((buf (i + 2) : ℚ) + (eB : ℚ) * f))) := by
  unfold applyError
  rw [upd_apply_same, upd_apply_ne _ _ (by omega),
    upd_apply_ne _ _ (by omega)]

lemma applyError_le (buf : ℕ → ℕ) (i : ℕ) (eR eG eB : ℤ) (f : ℚ)
    (hb : ∀ j, buf j ≤ 255) : ∀ j, applyError buf i eR eG eB f j ≤ 255 := by
  intro j
  unfold applyError upd
  split
  · exact toByte_le _
  · split
    · exact toByte_le _
    · split
      · exact toByte_le _
      · exact hb j

lemma applyError_frame_pix {w x1 y1 x2 y2 c : ℕ} (b : ℕ → ℕ) (eR eG eB : ℤ)
    (f : ℚ) (h1 : x1 < w) (h2 : x2 < w) (hc : c < 4)
    (hne : (x1, y1) ≠ (x2, y2)) :
    applyError b (idx w x2 y2) eR eG eB f (idx w x1 y1 + c) =
      b (idx w x1 y1 + c) := by
  have k0 := idx_byte_ne h1 h2 hc (show 0 < 4 by omega) hne
  have k1 := idx_byte_ne h1 h2 hc (show 1 < 4 by omega) hne
  have k2 := idx_byte_ne h1 h2 hc (show 2 < 4 by omega) hne
  rw [Nat.add_zero] at k0
  exact applyError_frame b eR eG eB f k0 k1 k2


lemma pair_ne_of_fst {a b c d : ℕ} (h : a ≠ c) : (a, b) ≠ (c, d) :=
  fun hq => h (congrArg Prod.fst hq)

lemma pair_ne_of_snd {a b c d : ℕ} (h : b ≠ d) : (a, b) ≠ (c, d) :=
  fun hq => h (congrArg Prod.snd hq)

/-- C8: the Floyd–Steinberg diffusion kernel behaves exactly as claimed at
every anchor inside the image row (`C8Spec`). -/
theorem fs_kernel_exact (buf : ℕ → ℕ) (x y w h s : ℕ) (eR eG eB : ℤ)
    (hxw : x < w) (hs : 1 ≤ s) : C8Spec buf x y w h s eR eG eB := by
  have hxsw : x - s < w := lt_of_le_of_lt (Nat.sub_le x s) hxw
  unfold C8Spec FloydSteinberg.distributeError
  set b1 := if x + s < w then applyError buf (idx w (x + s) y) eR eG eB (7/16) else buf with hb1
  set b2 := if y + s < h ∧ s ≤ x then applyError b1 (idx w (x - s) (y + s)) eR eG eB (3/16) else b1 with hb2
  set b3 := if y + s < h then applyError b2 (idx w x (y + s)) eR eG eB (5/16) else b2 with hb3
  have fr1 : ∀ (px py c : ℕ), px < w → c < 4 → (px, py) ≠ (x + s, y) →
      b1 (idx w px py + c) = buf (idx w px py + c) := by
    intro px py c hpx hc hne
    rw [hb1]
    by_cases hg : x + s < w
    · rw [if_pos hg]
      exact applyError_frame_pix buf eR eG eB _ hpx hg hc hne
    · rw [if_neg hg]
  have fr2 : ∀ (px py c : ℕ), px < w → c < 4 →
      (s ≤ x → (px, py) ≠ (x - s, y + s)) →
      b2 (idx w px py + c) = b1 (idx w px py + c) := by
    intro px py c hpx hc hne
    rw [hb2]
    by_cases hg : y + s < h ∧ s ≤ x
    · rw [if_pos hg]
      exact applyError_frame_pix b1 eR eG eB _ hpx hxsw hc (hne hg.2)
    · rw [if_neg hg]
  have fr3 : ∀ (px py c : ℕ), px < w → c < 4 → (px, py) ≠ (x, y + s) →
      b3 (idx w px py + c) = b2 (idx w px py + c) := by
    intro px py c hpx hc hne
    rw [hb3]
    by_cases hg : y + s < h
    · rw [if_pos hg]
      exact applyError_frame_pix b2 eR eG eB _ hpx hxw hc hne
    · rw [if_neg hg]
  have fr4 : ∀ (px py c : ℕ), px < w → c < 4 →
      (x + s < w → (px, py) ≠ (x + s, y + s)) →
      (if y + s < h ∧ x + s < w then
        applyError b3 (idx w (x + s) (y + s)) eR eG eB (1/16) else b3)
        (idx w px py + c) = b3 (idx w px py + c) := by
    intro px py c hpx hc hne
    by_cases hg : y + s < h ∧ x + s < w
    · rw [if_pos hg]
      exact applyError_frame_pix b3 eR eG eB _ hpx hg.2 hc (hne hg.2)
    · rw [if_neg hg]
  refine ⟨by norm_num, ?_, ?_, ?_, ?_, ?_, ?_⟩
  · -- value at the right neighbour (x+s, y), weight 7/16
    intro hg1 c hc
    have e4 := fr4 (x + s) y c hg1 (by omega)
      (fun _ => pair_ne_of_snd (by omega))
    have e3 := fr3 (x + s) y c hg1 (by omega) (pair_ne_of_snd (by omega))
    have e2 := fr2 (x + s) y c hg1 (by omega)
      (fun _ => pair_ne_of_snd (by omega))
    rw [e4, e3, e2, hb1, if_pos hg1]
    interval_cases c
    · rw [Nat.add_zero, applyError_at0]
      simp [chErr]
    · rw [applyError_at1]
      simp [chErr]
    · rw [applyError_at2]
      simp [chErr]
  · -- value at the below-left neighbour (x-s, y+s), weight 3/16
    intro hgh hgx c hc
    have e4 := fr4 (x - s) (y + s) c hxsw (by omega)
      (fun _ => pair_ne_of_fst (by omega))
    have e3 := fr3 (x - s) (y + s) c hxsw (by omega)
      (pair_ne_of_fst (by omega))
    have e1 : ∀ c', c' < 4 →
        b1 (idx w (x - s) (y + s) + c') = buf (idx w (x - s) (y + s) + c') :=
      fun c' hc' => fr1 (x - s) (y + s) c' hxsw hc' (pair_ne_of_snd (by omega))
    rw [e4, e3, hb2, if_pos ⟨hgh, hgx⟩]
    interval_cases c
    · have e1z := e1 0 (by omega)
      rw [Nat.add_zero] at e1z
      rw [Nat.add_zero, applyError_at0, e1z]
      simp [chErr]
    · rw [applyError_at1, e1 1 (by omega)]
      simp [chErr]
    · rw [applyError_at2, e1 2 (by omega)]
      simp [chErr]
  · -- value at the below neighbour (x, y+s), weight 5/16
    intro hgh c hc
    have e4 := fr4 x (y + s) c hxw (by omega)
      (fun _ => pair_ne_of_fst (by omega))
    have e2 : ∀ c', c' < 4 →
        b2 (idx w x (y + s) + c') = b1 (idx w x (y + s) + c') :=
      fun c' hc' => fr2 x (y + s) c' hxw hc'
        (fun hsx => pair_ne_of_fst (by omega))
    have e1 : ∀ c', c' < 4 →
        b1 (idx w x (y + s) + c') = buf (idx w x (y + s) + c') :=
      fun c' hc' => fr1 x (y + s) c' hxw hc' (pair_ne_of_snd (by omega))
    rw [e4, hb3, if_pos hgh]
    interval_cases c
    · have e2z := e2 0 (by omega)
      have e1z := e1 0 (by omega)
      rw [Nat.add_zero] at e2z e1z
      rw [Nat.add_zero, applyError_at0, e2z, e1z]
      simp [chErr]
    · rw [applyError_at1, e2 1 (by omega), e1 1 (by omega)]
      simp [chErr]
    · rw [applyError_at2, e2 2 (by omega), e1 2 (by omega)]
      simp [chErr]
  · -- value at the below-right neighbour (x+s, y+s), weight 1/16
    intro hgh hgw c hc
    have e3 : ∀ c', c' < 4 →
        b3 (idx w (x + s) (y + s) + c') = b2 (idx w (x + s) (y + s) + c') :=
      fun c' hc' => fr3 (x + s) (y + s) c' hgw hc' (pair_ne_of_fst (by omega))
    have e2 : ∀ c', c' < 4 →
        b2 (idx w (x + s) (y + s) + c') = b1 (idx w (x + s) (y + s) + c') :=
      fun c' hc' => fr2 (x + s) (y + s) c' hgw hc'
        (fun hsx => pair_ne_of_fst (by omega))
    have e1 : ∀ c', c' < 4 →
        b1 (idx w (x + s) (y + s) + c') = buf (idx w (x + s) (y + s) + c') :=
      fun c' hc' => fr1 (x + s) (y + s) c' hgw hc' (pair_ne_of_snd (by omega))
    rw [if_pos ⟨hgh, hgw⟩]
    interval_cases c
    · have e3z := e3 0 (by omega)
      have e2z := e2 0 (by omega)
      have e1z := e1 0 (by omega)
      rw [Nat.add_zero] at e3z e2z e1z
      rw [Nat.add_zero, applyError_at0, e3z, e2z, e1z]
      simp [chErr]
    · rw [applyError_at1, e3 1 (by omega), e2 1 (by omega), e1 1 (by omega)]
      simp [chErr]
    · rw [applyError_at2, e3 2 (by omega), e2 2 (by omega), e1 2 (by omega)]
      simp [chErr]
  · -- frame: bytes away from all four neighbours are untouched
    intro j hj
    have k1 : ∀ b : ℕ → ℕ, applyError b (idx w (x + s) y) eR eG eB (7/16) j = b j := by
      intro b
      have q0 := (hj 0 (by omega)).1
      have q1 := (hj 1 (by omega)).1
      have q2 := (hj 2 (by omega)).1
      rw [Nat.add_zero] at q0
      exact applyError_frame b eR eG eB _ q0 q1 q2
    have k2 : ∀ b : ℕ → ℕ, applyError b (idx w (x - s) (y + s)) eR eG eB (3/16) j = b j := by
      intro b
      have q0 := (hj 0 (by omega)).2.1
      have q1 := (hj 1 (by omega)).2.1
      have q2 := (hj 2 (by omega)).2.1
      rw [Nat.add_zero] at q0
      exact applyError_frame b eR eG eB _ q0 q1 q2
    have k3 : ∀ b : ℕ → ℕ, applyError b (idx w x (y + s)) eR eG eB (5/16) j = b j := by
      intro b
      have q0 := (hj 0 (by omega)).2.2.1
      have q1 := (hj 1 (by omega)).2.2.1
      have q2 := (hj 2 (by omega)).2.2.1
      rw [Nat.add_zero] at q0
      exact applyError_frame b eR eG eB _ q0 q1 q2
    have k4 : ∀ b : ℕ → ℕ, applyError b (idx w (x + s) (y + s)) eR eG eB (1/16) j = b j := by
      intro b
      have q0 := (hj 0 (by omega)).2.2.2
      have q1 := (hj 1 (by omega)).2.2.2
      have q2 := (hj 2 (by omega)).2.2.2
      rw [Nat.add_zero] at q0
      exact applyError_frame b eR eG eB _ q0 q1 q2
    have e1 : b1 j = buf j := by
      rw [hb1]
      by_cases hg : x + s < w
      · rw [if_pos hg, k1 buf]
      · rw [if_neg hg]
    have e2 : b2 j = buf j := by
      rw [hb2]
      by_cases hg : y + s < h ∧ s ≤ x
      · rw [if_pos hg, k2 b1, e1]
      · rw [if_neg hg, e1]
    have e3 : b3 j = buf j := by
      rw [hb3]
      by_cases hg : y + s < h
      · rw [if_pos hg, k3 b2, e2]
      · rw [if_neg hg, e2]
    by_cases hg : y + s < h ∧ x + s < w
    · rw [if_pos hg, k4 b3, e3]
    · rw [if_neg hg, e3]
  · -- range preservation
    intro hb j
    have l1 : ∀ j, b1 j ≤ 255 := by
      intro j'
      rw [hb1]
      by_cases hg : x + s < w
      · rw [if_pos hg]; exact applyError_le buf _ _ _ _ _ hb j'
      · rw [if_neg hg]; exact hb j'
    have l2 : ∀ j, b2 j ≤ 255 := by
      intro j'
      rw [hb2]
      by_cases hg : y + s < h ∧ s ≤ x
      · rw [if_pos hg]; exact applyError_le b1 _ _ _ _ _ l1 j'
      · rw [if_neg hg]; exact l1 j'
    have l3 : ∀ j, b3 j ≤ 255 := by
      intro j'
      rw [hb3]
      by_cases hg : y + s < h
      · rw [if_pos hg]; exact applyError_le b2 _ _ _ _ _ l2 j'
      · rw [if_neg hg]; exact l2 j'
    by_cases hg : y + s < h ∧ x + s < w
    · rw [if_pos hg]; exact applyError_le b3 _ _ _ _ _ l3 j
    · rw [if_neg hg]; exact l3 j

/-- Witness for `fs_kernel_exact`: a fully interior anchor `(1, 0)` of a
4×4 buffer holding 100 everywhere, step 1. -/
theorem fs_kernel_exact_witness :
    C8Spec (fun _ => 100) 1 0 4 4 1 16 16 16 :=
  fs_kernel_exact (fun _ => 100) 1 0 4 4 1 16 16 16 (by omega) (by omega)


/-- Counterexample to C9: `'custom'` is registered in the registry at call
time, yet option validation — which consults only the hardcoded
`validAlgorithms` list — rejects it, so `ditherImage` fails before ever
consulting the registry; the registered algorithm is never applied. -/
theorem pipeline_rejects_registered_custom_algorithm :
    getAlg customRegistry "custom" = some customAlg ∧
    validateOptions customOptions =
      .error "Invalid algorithm: custom. Must be one of: atkinson, floyd-steinberg, ordered" ∧
    ditherImageData customRegistry (fun i _ _ => i) (fun _ => 0) wImg customOptions =
      .error "Invalid algorithm: custom. Must be one of: atkinson, floyd-steinberg, ordered" := by
  refine ⟨rfl, rfl, rfl⟩

/-- C9 (amended): option validation accepts exactly the three hardcoded
names regardless of registry contents.  (a) A name outside
`validAlgorithms` — registered or not — is rejected by `validateOptions`
with the invalid-algorithm error (assuming the five earlier option checks
pass), before any dithering; (b) for an accepted name present in the
registry, `ditherImage` applies exactly the registered algorithm to the
resized image, resolved palette and step; (c) for an accepted name missing
from the registry, `ditherImage` fails with the unknown-algorithm error
before any dithering. -/
theorem pipeline_algorithm_resolution :
    (∀ (o : DitherOptions) (name : String),
      o.algorithm = some name →
      (o.step.any fun s => decide (s ≤ 0)) = false →
      (o.quality.any fun q => decide (q < 0) || decide (1 < q)) = false →
      (o.width.any fun v => decide (v ≤ 0)) = false →
      (o.height.any fun v => decide (v ≤ 0)) = false →
      (o.palette.any fun p => p.isEmpty) = false →
      validAlgorithms.contains name = false →
      validateOptions o =
        .error ("Invalid algorithm: " ++ name ++
          ". Must be one of: atkinson, floyd-steinberg, ordered")) ∧
    (∀ (reg : Registry) (resizeF : Image → Option ℤ → Option ℤ → Image)
      (rng : ℕ → ℚ) (input : Image) (o : DitherOptions) (name : String)
      (f : RegApply),
      o.algorithm = some name → validateOptions o = .ok () →
      getAlg reg name = some f →
      ditherImageData reg resizeF rng input o =
        f (applyResize resizeF input o) (determinePalette o) (o.step.getD 1) rng) ∧
    (∀ (reg : Registry) (resizeF : Image → Option ℤ → Option ℤ → Image)
      (rng : ℕ → ℚ) (input : Image) (o : DitherOptions) (name : String),
      o.algorithm = some name → validateOptions o = .ok () →
      getAlg reg name = none →
      ditherImageData reg resizeF rng input o =
        .error ("Unknown algorithm: " ++ name)) := by
  refine ⟨?_, ?_, ?_⟩
  · intro o name halg h1 h2 h3 h4 h5 hcon
    unfold validateOptions
    rw [h1, h2, h3, h4, h5]
    simp only [Option.any_some, halg, hcon, Bool.not_false, if_true, if_false,
      Bool.false_eq_true, Option.getD_some]
  · intro reg resizeF rng input o name f halg hval hget
    unfold ditherImageData getAlgorithm
    rw [hval, halg]
    simp only [Option.getD_some, hget]
    rfl
  · intro reg resizeF rng input o name halg hval hget
    unfold ditherImageData getAlgorithm
    rw [hval, halg]
    simp only [Option.getD_some, hget]
    rfl

/-- Witness for `pipeline_algorithm_resolution`: part (b) at the built-in
registry, the `'ordered'` entry, the 2×2 test image, step 2 and an explicit
black/white palette. -/
theorem pipeline_algorithm_resolution_witness :
    ditherImageData builtinRegistry (fun i _ _ => i) (fun _ => 0) wImg
        { palette := some wPal, algorithm := some "ordered", step := some 2 } =
      (fun img p s rng => Ordered.apply img p s rng)
        (applyResize (fun i _ _ => i) wImg
          { palette := some wPal, algorithm := some "ordered", step := some 2 })
        (determinePalette
          { palette := some wPal, algorithm := some "ordered", step := some 2 })
        ((DitherOptions.step
          { palette := some wPal, algorithm := some "ordered", step := some 2 }).getD 1)
        (fun _ => 0) :=
  pipeline_algorithm_resolution.2.1 builtinRegistry (fun i _ _ => i) (fun _ => 0)
    wImg { palette := some wPal, algorithm := some "ordered", step := some 2 }
    "ordered" (fun img p s rng => Ordered.apply img p s rng) rfl rfl rfl

lemma atkinson_wimg_step2 :
    Atkinson.apply wImg wPal 2 =
      .ok ⟨2, 2, Atkinson.loop 2 2 2 wPal wImg.data⟩ := rfl

lemma atkinson_wimg_loop_eval : ∀ j,
    Atkinson.loop 2 2 2 wPal wImg.data j =
      writeRGBA wImg.data 0 (0, 0, 0) j := by
  intro j
  have hanch : anchors 2 2 2 = [(0, 0)] := rfl
  unfold Atkinson.loop
  rw [hanch]
  simp only [List.foldl_cons, List.foldl_nil]
  unfold Atkinson.processPixel
  have hi : idx 2 0 0 = 0 := rfl
  have hfc : findClosestColor
      (toQ (wImg.data 0, wImg.data (0 + 1), wImg.data (0 + 2))) wPal = (0, 0, 0) := by
    norm_num [findClosestColor, findClosestGo, ltMin, distSq, toQ, wImg, wPal,
      List.getD]
  simp only [hi, hfc]
  unfold Atkinson.distributeError
  norm_num

/-- C1 fails on the code: with the Atkinson algorithm, the black/white
palette and step 2, the output pixel at `(1, 0)` keeps its input RGB
`(7,7,7)`, which is not a member of the palette — `atkinson.ts` never
writes non-anchor pixels (no block fill), so palette closure is violated
for `step > 1`. -/
theorem atkinson_step2_output_not_in_palette :
    (Atkinson.apply wImg wPal 2).map (fun o => (o.data 4, o.data 5, o.data 6)) =
      .ok ((7 : ℕ), (7 : ℕ), (7 : ℕ)) ∧ ((7, 7, 7) : Color) ∉ wPal := by
  constructor
  · rw [atkinson_wimg_step2]
    simp only [Except.map]
    rw [atkinson_wimg_loop_eval 4, atkinson_wimg_loop_eval 5,
      atkinson_wimg_loop_eval 6]
    simp [writeRGBA, upd, wImg, List.getD]
  · decide

/-- C2 fails on the code: with the Atkinson algorithm and step 2 the single
2×2 block of the 2×2 test image is not uniform — the anchor `(0,0)`
quantizes to black (red byte 0) while the unclipped block member `(1,0)`
keeps its input red byte 7, because `atkinson.ts` performs no block fill. -/
theorem atkinson_step2_block_not_uniform :
    (Atkinson.apply wImg wPal 2).map (fun o => (o.data 0, o.data 4)) =
      .ok ((0 : ℕ), (7 : ℕ)) ∧ (0 : ℕ) ≠ 7 := by
  constructor
  · rw [atkinson_wimg_step2]
    simp only [Except.map]
    rw [atkinson_wimg_loop_eval 0, atkinson_wimg_loop_eval 4]
    simp [writeRGBA, upd, wImg, List.getD]
  · decide

/-- C3 fails on the code: with the Atkinson algorithm and step 2 the output
alpha byte of the non-anchor pixel `(1,0)` keeps its input value 3 instead
of 255, because `atkinson.ts` forces alpha only at anchors and performs no
block fill. -/
theorem atkinson_step2_alpha_not_forced :
    (Atkinson.apply wImg wPal 2).map (fun o => o.data 7) = .ok (3 : ℕ) ∧
      (3 : ℕ) ≠ 255 := by
  constructor
  · rw [atkinson_wimg_step2]
    simp only [Except.map]
    rw [atkinson_wimg_loop_eval 7]
    simp [writeRGBA, upd, wImg, List.getD]
  · decide
